import Mathlib

/-!
# Verification of the extendo client core

A shallow embedding, in Lean 4, of the core of the `extendo` Go library
(package `extendo`, files `client.go`, `client_pool.go`, `rodsitem.go`,
`utilities/utilities.go`): the baton sub-process client, its request
dispatcher, the client pool, the sorting normalisation applied to decoded
items, and the JSON request/response envelope codec.

Go machine integers are modelled as `Nat` with explicit `% 256` where the
source performs `uint8` arithmetic that can wrap. Go `error` values are
modelled by an explicit inductive type; a `nil` error is `Option.none` or
`Except.ok`. Channels, goroutines and timers are modelled by explicit event
sequences or state passing, as noted at each definition.
-/

namespace Extendo

/-- Errors produced by the embedded code paths. Distinct Go `error` values
are mapped to distinct constructors; `errors.Errorf` messages that only
carry text are mapped to `other` with their format string. -/
inductive GoError where
  /-- `errPoolClosed` ("the client pool is closed"), client_pool.go. -/
  | poolClosed
  /-- `errPoolEmpty` ("the client pool is empty"), client_pool.go. -/
  | poolEmpty
  /-- `errDeadClient` ("dead client in the client pool"), client_pool.go. -/
  | deadClient
  /-- `errGetTimeout` ("timeout getting client from the pool"), client_pool.go. -/
  | getTimeout
  /-- `errors.Errorf("failed to get a client from the pool after %d tries")`,
  returned by `ClientPool.getWithRetries`. -/
  | acquireExhausted (tries : Nat)
  /-- `errors.New("receiving failed")`, returned by `Client.send` when the
  response timeout expires and the sub-process is no longer running. -/
  | receiveFailed
  /-- `errors.New("client is not running")`, returned by `Client.execute`. -/
  | clientNotRunning
  /-- An error raised while spawning a new sub-process (`FindAndStart`). -/
  | spawnError (msg : String)
  /-- A terminal error of a baton sub-process (the value of `cmd.Wait()`). -/
  | subprocessError (msg : String)
  /-- Any other `errors.New` / `errors.Errorf` error, by its message. -/
  | other (msg : String)
deriving DecidableEq, Repr

/-! ## C1 - the dispatcher's receive loop (`Client.send`, client.go:775-791)

`Client.send` marshals the request, places it on the `client.in` channel and
then loops: each iteration it `select`s between a line arriving on
`client.out` and the expiry of a fresh `time.After(client.respTimeout)`
timer. We model one run of this loop by the sequence of events the `select`
observes: either a response line arrives, or the timer expires, in which
case the loop inspects the `client.isRunning` flag at that moment. -/

/-- One event observed by the `waitResponse` loop of `Client.send`:
either a response line arrives on `client.out`, or the response timer
expires while the client's running flag has the recorded value. -/
inductive RecvEvent where
  /-- A line arrived on the `client.out` channel. -/
  | response (line : String)
  /-- `time.After(client.respTimeout)` fired; `isRunning` is the value of
  `client.isRunning` read at that moment. -/
  | timeoutExpiry (isRunning : Bool)
deriving DecidableEq, Repr

/-- The `waitResponse` loop of `Client.send` (client.go:775-791), run over a
sequence of observed events. `some (Except.ok line)` means the loop broke out
with a response; `some (Except.error e)` means it returned an error; `none`
means that after consuming every listed event the loop is still waiting. On
a timer expiry the loop re-arms and continues when `client.isRunning` is
true, and returns `errors.New("receiving failed")` otherwise. -/
def sendWait : List RecvEvent → Option (Except GoError String)
  | [] => none
  | RecvEvent.response line :: _ => some (Except.ok line)
  | RecvEvent.timeoutExpiry isRunning :: rest =>
      if isRunning then sendWait rest
      else some (Except.error GoError.receiveFailed)

/-! ## C10 - `Client.ListItem` (client.go:537-556)

`ListItem` first rejects `Args.Recurse`; otherwise it dispatches one `list`
operation through `Client.execute` and demands exactly one returned item.
The interaction with the sub-process is abstracted by passing the outcome
that `client.execute(LIST, args, item)` would deliver; the returned `Bool`
records whether `execute` was invoked at all. -/

/-- The boolean argument flags of an operation (`Args`, client.go:109-134).
Field names follow the source; every field carries the Go zero value by
default, matching a zero `Args` literal. -/
structure Args where
  Operation : String := ""
  ACL : Bool := false
  AVU : Bool := false
  Checksum : Bool := false
  Collection : Bool := false
  Contents : Bool := false
  Force : Bool := false
  Object : Bool := false
  Recurse : Bool := false
  Replicate : Bool := false
  Size : Bool := false
  Timestamp : Bool := false
deriving DecidableEq, Repr

/-- `Client.ListItem` (client.go:537-556), with the dispatch through
`client.execute(LIST, args, item)` abstracted as `execResult` over an
arbitrary item type `Item`. The first component records whether `execute`
was invoked; the second is `ListItem`'s returned value: the single listed
item, or the error the source raises. The source returns the argument item
alongside every error; only the error component is modelled because Go
callers discard the item on error. -/
def ListItem {Item : Type} (args : Args)
    (execResult : Except GoError (List Item)) :
    Bool × Except GoError Item :=
  if args.Recurse then
    (false, Except.error (GoError.other "invalid argument: Recurse=true"))
  else
    match execResult with
    | Except.error e => (true, Except.error e)
    | Except.ok items =>
        match items with
        | [] => (true, Except.error (GoError.other "no such item"))
        | [x] => (true, Except.ok x)
        | _ => (true, Except.error
            (GoError.other "attempt to ListItem multiple items"))

/-! ## C5 - executable discovery (`FindBaton`, client.go:187-213)

`FindBaton` reads `PATH`, splits it on ":" and, for each directory, globs
for `baton-do`. The filesystem is modelled by a predicate on paths.
`filepath.Glob` applied to a pattern without metacharacters returns the
pattern itself exactly when `os.Lstat` succeeds on it, so for the fixed
literal name `baton-do` (and directories free of glob metacharacters) the
glob is an existence test. -/

/-- `strings.Split` of a character list at every occurrence of a one-byte
separator; splitting the empty list gives one empty group, matching Go's
`strings.Split("", sep) == []string{""}`. -/
def splitOnCharList (sep : Char) : List Char → List (List Char)
  | [] => [[]]
  | c :: rest =>
      let r := splitOnCharList sep rest
      if c = sep then [] :: r
      else
        match r with
        | [] => [[c]]
        | g :: gs => (c :: g) :: gs

/-- `strings.Split(s, sep)` for a one-character separator, the only form
the embedded code uses (PATH on ":", path elements on "/"). -/
def splitOnChar (sep : Char) (s : String) : List String :=
  (splitOnCharList sep s.data).map (fun l => String.mk l)

/-- Joining character-list path elements with a separator, used to
reassemble cleaned paths (`strings.Join`). -/
def intercalateChar (sep : Char) : List (List Char) → List Char
  | [] => []
  | [p] => p
  | p :: rest => p ++ sep :: intercalateChar sep rest

/-- The element-stacking algorithm of Unix `filepath.Clean`: split on "/",
drop empty and "." elements, resolve ".." against the stack (discarding a
leading ".." only for rooted paths), and reassemble; the empty path cleans
to ".". -/
def cleanPath (path : String) : String :=
  if path = "" then "."
  else
    let rooted : Bool :=
      match path.data with
      | '/' :: _ => true
      | _ => false
    let stack := (splitOnCharList '/' path.data).foldl (fun st e =>
      if e = [] || e = ['.'] then st
      else if e = ['.', '.'] then
        match st with
        | [] => if rooted then [] else [['.', '.']]
        | top :: rest => if top = ['.', '.'] then e :: st else rest
      else e :: st) []
    let body := intercalateChar '/' stack.reverse
    if rooted then String.mk ('/' :: body)
    else if body = [] then "." else String.mk body

/-- Unix `filepath.Base`: the empty path gives ".", an all-slash path gives
"/", otherwise the last element after stripping trailing slashes. -/
def basePath (path : String) : String :=
  if path = "" then "."
  else
    let p := (path.data.reverse.dropWhile (fun ch => ch = '/')).reverse
    if p = [] then "/"
    else String.mk ((splitOnCharList '/' p).getLastD [])

/-- Unix `filepath.Join` of two elements, as used by
`filepath.Join(dir, "baton-do")`: empty elements are dropped, the rest are
joined with "/" and the result is cleaned. -/
def joinPath (dir file : String) : String :=
  if dir = "" then
    if file = "" then "" else cleanPath file
  else if file = "" then cleanPath dir
  else cleanPath (String.mk (dir.data ++ '/' :: file.data))

/-- `filepath.Glob` specialised to a metacharacter-free pattern: it returns
the pattern itself exactly when the path exists (Go: the no-meta fast path
calls `os.Lstat` and returns the literal pattern on success). -/
def globLiteral (fsExists : String → Bool) (pattern : String) : List String :=
  if fsExists pattern then [pattern] else []

/-- `FindBaton` (client.go:187-213). For each directory of the split search
path, the glob matches are scanned for a basename equal to "baton-do" and
the first such match is written into the loop variable; the loop over
directories does not stop at the first hit, so a later directory
overwrites an earlier one. An empty final value is the not-found error;
otherwise the cleaned value is returned. -/
def FindBaton (fsExists : String → Bool) (envPath : String) :
    Except String String :=
  let dirs := splitOnChar ':' envPath
  let baton := dirs.foldl (fun acc dir =>
    let paths := globLiteral fsExists (joinPath dir "baton-do")
    match paths.find? (fun p => basePath p = "baton-do") with
    | some p => p
    | none => acc) ""
  if baton = "" then
    Except.error ("baton-do not present in PATH " ++ envPath)
  else
    Except.ok (cleanPath baton)

/-! ## C6 - pool worker argv (`NewClientPool`, client_pool.go:91-110;
`utilities.Uniq`, utilities/utilities.go:25-39)

`Uniq` inserts every element into a Go map and then collects and sorts the
keys with `sort.Strings`. The key set is the set of distinct input
elements; the random map iteration order is erased by the sort, so the
function is deterministically the ascending enumeration of the distinct
elements, which is how it is modelled (`List.dedup` produces the distinct
elements, `List.insertionSort` the ascending order; any correct sort of a
duplicate-free list of strings yields this same list). -/

/-- Go's `<` on strings: byte-wise lexicographic comparison. UTF-8 byte
order coincides with code-point order, so it is computed on the character
lists. -/
def strLtB : List Char → List Char → Bool
  | _, [] => false
  | [], _ :: _ => true
  | c :: cs, d :: ds =>
      if c < d then true else if d < c then false else strLtB cs ds

/-- Go string comparison `a <= b`, the order used by `sort.Strings`. -/
def goStrLe (a b : String) : Bool := !(strLtB b.data a.data)

/-- `utilities.Uniq`: the lexicographically ascending list of the distinct
input strings. -/
def Uniq (items : List String) : List String :=
  items.dedup.insertionSort (fun a b => goStrLe a b = true)

/-- The worker argv computed by `NewClientPool` (client_pool.go:93-94):
the fixed tokens for unbuffered stdio and in-band errors are prepended to
the caller's extra arguments and the combined list is passed through
`Uniq`. -/
def newClientPoolArgs (clientArgs : List String) : List String :=
  Uniq (["--unbuffered", "--no-error"] ++ clientArgs)

/-! ## C2, C3, C4 - client stop semantics and the pool

A started client (client.go:248-415) owns a one-shot buffered channel
`client.err`. The completion-watcher goroutine (client.go:384-397) waits
for the I/O goroutines, calls `cmd.Wait()`, clears the running flag,
publishes the terminal error on `client.err` and closes the channel.
`Stop` (client.go:419-423) cancels the I/O context and receives from
`client.err`: the first receive obtains the published terminal error, and
every later receive obtains the zero value `nil` because the channel is
closed and empty. The state of a started client is modelled by the flag,
the terminal error the watcher publishes, and whether that one value has
already been received. -/

/-- The lifecycle state of a started `Client` relevant to `Stop`,
`StopIgnoreError` and the pool: the running flag, the terminal error the
completion watcher publishes on the one-shot `client.err` channel
(`none` = nil), and whether that single value has been received already. -/
structure ClientState where
  isRunning : Bool
  terminalErr : Option GoError
  errConsumed : Bool
deriving DecidableEq, Repr

/-- `Client.Stop` (client.go:419-423): cancel the I/O goroutines, then
receive from the one-shot `client.err` channel. The first call blocks
until the completion watcher has published the terminal error (so the
running flag is false afterwards) and returns that error; any later call
receives from the closed, drained channel and returns nil. -/
def Client.Stop (c : ClientState) : Option GoError × ClientState :=
  if c.errConsumed then
    (none, { c with isRunning := false })
  else
    (c.terminalErr, { c with isRunning := false, errConsumed := true })

/-- `Client.StopIgnoreError` (client.go:453-458): `Stop`, with any error
logged and discarded. -/
def Client.StopIgnoreError (c : ClientState) : ClientState :=
  (Client.Stop c).2

/-- The state of a `ClientPool` (client_pool.go:45-57): the open flag, the
idle stack `pool.clients` (the last list element is the top of the stack),
the `uint8` population count `pool.numClients`, and the `uint8` parameters
`maxSize` and `getMaxRetries`. Durations and the reaper are not part of
the modelled claims. -/
structure PoolState where
  isOpen : Bool
  clients : List ClientState
  numClients : Nat
  maxSize : Nat
  getMaxRetries : Nat
deriving DecidableEq, Repr

/-- `ClientPool.Return` (client_pool.go:264-292). Returns the Go return
value (`none` = nil), the new pool state, and the final state of the
returned client. A closed pool stops the client ignoring errors; a
non-running client is discarded and the `uint8` population is decremented
(with wrap-around, as Go `numClients--` would underflow at 0); a running
client is pushed when the idle count is below `maxSize`; otherwise the
client is stopped and the stop error is returned as-is. -/
def ClientPool.Return (pool : PoolState) (client : ClientState) :
    Option GoError × PoolState × ClientState :=
  if !pool.isOpen then
    (none, pool, Client.StopIgnoreError client)
  else if !client.isRunning then
    (none, { pool with numClients := (pool.numClients + 255) % 256 }, client)
  else if pool.clients.length < pool.maxSize then
    (none, { pool with clients := pool.clients ++ [client] }, client)
  else
    let stopped := Client.Stop client
    (stopped.1, pool, stopped.2)

/-- `ClientPool.Close` (client_pool.go:296-317): an already-closed pool is
left untouched; otherwise the open flag is cleared and every idle client
is popped (top of stack first) and stopped, errors logged. Returns the new
pool state and the stopped clients in pop order. -/
def ClientPool.Close (pool : PoolState) : PoolState × List ClientState :=
  if !pool.isOpen then (pool, [])
  else
    ({ pool with isOpen := false, clients := [] },
     pool.clients.reverse.map Client.StopIgnoreError)

/-- One call of `ClientPool.getWithTimeout` (client_pool.go:152-196). The
`select` polls the timer at the top of every iteration: `fuel` is the
number of iterations the timer allows before it fires (the timeout error).
Within an iteration: a closed pool fails with `errPoolClosed`; a
non-empty idle stack is popped from the top; if the population is below
`maxSize` a new client is spawned (`FindAndStart`, abstracted by
`spawnResult`) and the population incremented only on success, the result
being returned either way; otherwise the loop sleeps and retries. -/
def ClientPool.getWithTimeout (pool : PoolState)
    (spawnResult : Except GoError ClientState) :
    Nat → Except GoError ClientState × PoolState
  | 0 => (Except.error GoError.getTimeout, pool)
  | fuel + 1 =>
      if !pool.isOpen then (Except.error GoError.poolClosed, pool)
      else
        match pool.clients.getLast? with
        | some top =>
            (Except.ok top, { pool with clients := pool.clients.dropLast })
        | none =>
            if pool.numClients < pool.maxSize then
              match spawnResult with
              | Except.ok c =>
                  (Except.ok c,
                   { pool with numClients := pool.numClients + 1 })
              | Except.error e => (Except.error e, pool)
            else
              ClientPool.getWithTimeout pool spawnResult fuel

/-- The retry loop of `ClientPool.getWithRetries` (client_pool.go:128-149)
with `remaining` tries left out of `maxRetries`: a failed attempt or an
attempt that produced a non-running (dead) client is retried; exhausting
the tries yields the "failed to get a client from the pool after N tries"
error. `spawns n` abstracts the outcome of the n-th `FindAndStart` call
and `fuel` the timer budget of each attempt. -/
def ClientPool.getRetryLoop (spawns : Nat → Except GoError ClientState)
    (fuel maxRetries : Nat) :
    Nat → PoolState → Except GoError ClientState × PoolState
  | 0, pool => (Except.error (GoError.acquireExhausted maxRetries), pool)
  | remaining + 1, pool =>
      let attempt := ClientPool.getWithTimeout pool (spawns 0) fuel
      match attempt.1 with
      | Except.error _ =>
          ClientPool.getRetryLoop (fun n => spawns (n + 1)) fuel maxRetries
            remaining attempt.2
      | Except.ok c =>
          if c.isRunning then (Except.ok c, attempt.2)
          else
            ClientPool.getRetryLoop (fun n => spawns (n + 1)) fuel maxRetries
              remaining attempt.2

/-- `ClientPool.Get` = `getWithRetries` (client_pool.go:123-149): up to
`pool.getMaxRetries` attempts, each via `getWithTimeout`. -/
def ClientPool.Get (pool : PoolState)
    (spawns : Nat → Except GoError ClientState) (fuel : Nat) :
    Except GoError ClientState × PoolState :=
  ClientPool.getRetryLoop spawns fuel pool.getMaxRetries pool.getMaxRetries
    pool

/-! ## C7, C8 - the sorting normalisation (`SortAVUs`, `SortTimestamps`,
rodsitem.go:858-864 and 902-927)

Both functions call `sort.SliceStable` with a hand-written `less` closure.
`sort.SliceStable` runs insertion sort on blocks of up to 20 elements
(then merges blocks stably): each element is swapped leftwards while
`less(element, left neighbour)` holds. `goStableSort` is exactly that
insertion sort, so it coincides with `sort.SliceStable` on every slice of
at most 20 elements, and on slices of any length whenever `less` is a
strict weak order (for which a stable sort's result is unique). -/

/-- One step of Go's insertion sort: the new element sinks from the right
end of the already-sorted prefix past every neighbour `z` with
`less x z`, and stops at the first neighbour for which that fails. -/
def goInsertStep {α : Type} (less : α → α → Bool) (x : α) (s : List α) :
    List α :=
  ((s.reverse.dropWhile (fun z => less x z)).reverse) ++
    x :: ((s.reverse.takeWhile (fun z => less x z)).reverse)

/-- Go's `insertionSort(data, a, b)` on a list: fold every element into the
sorted prefix with `goInsertStep`. This is `sort.SliceStable`'s behaviour
on slices of length at most 20 (a single insertion-sort block). -/
def goStableSort {α : Type} (less : α → α → Bool) (xs : List α) : List α :=
  xs.foldl (fun s x => goInsertStep less x s) []

/-- An iRODS attribute-value-units metadata triple (`AVU`,
rodsitem.go:813-818). -/
structure AVU where
  Attr : String
  Value : String
  Units : String := ""
  Operator : String := ""
deriving DecidableEq, Repr

/-- The `less` closure of `SortAVUs` (rodsitem.go:858-864), exactly as
written in the source: a *disjunction* of the three field comparisons
(Go string `<` is byte-wise lexicographic, modelled by `strLtB`). -/
def avuLess (x y : AVU) : Bool :=
  strLtB x.Attr.data y.Attr.data ||
    strLtB x.Value.data y.Value.data ||
    strLtB x.Units.data y.Units.data

/-- `SortAVUs` (rodsitem.go:858-864): `sort.SliceStable` with `avuLess`. -/
def SortAVUs (avus : List AVU) : List AVU :=
  goStableSort avuLess avus

/-- An iRODS timestamp record (`Timestamp`, rodsitem.go:892-899).
`time.Time` instants are modelled as `Nat`, with 0 the zero time
(`IsZero`) and `<` the `Before` relation; `Replicates` is a Go `int`. -/
structure Timestamp where
  Created : Nat := 0
  Modified : Nat := 0
  Replicates : Int := 0
deriving DecidableEq, Repr

/-- The `less` closure of `SortTimestamps` (rodsitem.go:902-927), exactly
as written in the source: strictly by `Replicates` first, then a
disjunction over the created/modified clauses, where the modified clause
reads `!mi && mj` (the record with the *zero* modified time compares
less). -/
def timestampLess (x y : Timestamp) : Bool :=
  if x.Replicates < y.Replicates then true
  else if x.Replicates > y.Replicates then false
  else
    let ci : Bool := x.Created != 0
    let cj : Bool := y.Created != 0
    let mi : Bool := x.Modified != 0
    let mj : Bool := y.Modified != 0
    (ci && !cj) || (!mi && mj) ||
      (ci && cj && decide (x.Created < y.Created)) ||
      (mi && mj && decide (x.Modified < y.Modified))

/-- `SortTimestamps` (rodsitem.go:902-927): `sort.SliceStable` with
`timestampLess`. -/
def SortTimestamps (times : List Timestamp) : List Timestamp :=
  goStableSort timestampLess times

/-! ## C9 - the request/response envelope codec
(`Envelope`, client.go:95-144; `RodsItem`, rodsitem.go:440-464)

The wire format is modelled at the level of JSON values (the terminating
newline and whitespace are below this abstraction). Encoding is Go's
`json.Marshal` with the struct tags of the source: fields appear in struct
order, a field tagged `omitempty` is omitted when its value is the empty
string, 0, false, or an empty slice, and the unexported `client`
back-pointer is never serialised. `time.Time` instants are modelled as
`Nat` and serialised as JSON numbers standing for their (injective)
RFC3339 rendering; note that a struct-typed `time.Time` is never "empty"
for encoding/json, so `created` and `modified` are emitted even when zero
despite their omitempty tags. Decoding is Go's `json.Unmarshal` into the
tagged structs: the members of a JSON object are processed in order
(a duplicated key ends up with its last value), unknown keys are ignored,
missing keys leave the Go zero value, a type mismatch or an out-of-range
number for the machine-width target fails the whole decode. -/

/-- A JSON value. Object member order is significant to the encoder
(struct order) and to the decoder (later duplicates win), so objects carry
their members as a list. -/
inductive JValue where
  | str (s : String)
  | num (n : Int)
  | bool (b : Bool)
  | arr (elems : List JValue)
  | obj (members : List (String × JValue))
deriving Repr

/-- An iRODS access-control-list entry (`ACL`, rodsitem.go:793-801). -/
structure ACL where
  Owner : String
  Level : String
  Zone : String
deriving DecidableEq, Repr

/-- A data-object replicate (`Replicate`, rodsitem.go:866-878); `Number`
is a Go `uint16`. -/
structure Replicate where
  Resource : String
  Location : String
  Checksum : String
  Number : Nat
  Valid : Bool
deriving DecidableEq, Repr

/-- The in-band error of a response (`ErrorMsg`, client.go:141-144);
`Code` is a Go `int32`. -/
structure ErrorMsg where
  Message : String
  Code : Int
deriving DecidableEq, Repr

/-- `RodsItem` (rodsitem.go:440-464): the item descriptor, with its
recursive `IContents`. The unexported `client` back-pointer is not part of
the wire model. Field order is the struct order of the source. -/
inductive RodsItem where
  | mk (IFile IDirectory IPath IName IChecksum : String) (ISize : Nat)
      (IACLs : List ACL) (IAVUs : List AVU) (IContents : List RodsItem)
      (IReplicates : List Replicate) (ITimestamps : List Timestamp)
deriving Repr

/-- The zero value of `RodsItem`, produced by Go for missing fields. -/
def zeroRodsItem : RodsItem :=
  RodsItem.mk "" "" "" "" "" 0 [] [] [] [] []

/-- `ResultWrapper` (client.go:136-139). The source names the second field
`List`; that name collides with the list type in Lean, so it is
`ListItems` here (wire key "multiple"). -/
structure ResultWrapper where
  Item : Option RodsItem := none
  ListItems : Option (List RodsItem) := none
deriving Repr

/-- `Envelope` (client.go:95-106). The source names the last field
`ErrorMsg` (wire key "error"); it is `ErrMsg` here to avoid shadowing the
`ErrorMsg` type. -/
structure Envelope where
  Operation : String
  Arguments : Args
  Target : RodsItem
  Result : Option ResultWrapper := none
  ErrMsg : Option ErrorMsg := none
deriving Repr

/-- `wrap` (client.go:801-803): build a request envelope. -/
def wrap (operation : String) (args : Args) (target : RodsItem) : Envelope :=
  { Operation := operation, Arguments := args, Target := target }

/-- Marshal an `ACL` (all fields unconditional, struct order). -/
def encodeACL (a : ACL) : JValue :=
  JValue.obj [("owner", JValue.str a.Owner), ("level", JValue.str a.Level),
    ("zone", JValue.str a.Zone)]

/-- Marshal an `AVU` (`units` and `operator` carry omitempty). -/
def encodeAVU (a : AVU) : JValue :=
  JValue.obj
    ([("attribute", JValue.str a.Attr), ("value", JValue.str a.Value)] ++
      (if a.Units = "" then [] else [("units", JValue.str a.Units)]) ++
      (if a.Operator = "" then []
       else [("operator", JValue.str a.Operator)]))

/-- Marshal a `Replicate` (no omitempty tags: every field is emitted). -/
def encodeReplicate (r : Replicate) : JValue :=
  JValue.obj [("resource", JValue.str r.Resource),
    ("location", JValue.str r.Location),
    ("checksum", JValue.str r.Checksum),
    ("number", JValue.num (Int.ofNat r.Number)),
    ("valid", JValue.bool r.Valid)]

/-- Marshal a `Timestamp`. The struct-typed `created` and `modified` are
always emitted (encoding/json never treats a struct as empty); the `int`
field `replicates` honours its omitempty tag. -/
def encodeTimestamp (t : Timestamp) : JValue :=
  JValue.obj
    ([("created", JValue.num (Int.ofNat t.Created)),
      ("modified", JValue.num (Int.ofNat t.Modified))] ++
      (if t.Replicates = 0 then []
       else [("replicates", JValue.num t.Replicates)]))

/-- The members of the marshalled `Args` object (client.go:109-134): the
optional sub-operation tag and the eleven boolean flags, each with
omitempty, in struct order. -/
def argsMembers (a : Args) : List (String × JValue) :=
  (if a.Operation = "" then []
   else [("operation", JValue.str a.Operation)]) ++
  (if a.ACL then [("acl", JValue.bool a.ACL)] else []) ++
  (if a.AVU then [("avu", JValue.bool a.AVU)] else []) ++
  (if a.Checksum then [("checksum", JValue.bool a.Checksum)] else []) ++
  (if a.Collection then [("collection", JValue.bool a.Collection)]
   else []) ++
  (if a.Contents then [("contents", JValue.bool a.Contents)] else []) ++
  (if a.Force then [("force", JValue.bool a.Force)] else []) ++
  (if a.Object then [("object", JValue.bool a.Object)] else []) ++
  (if a.Recurse then [("recurse", JValue.bool a.Recurse)] else []) ++
  (if a.Replicate then [("replicate", JValue.bool a.Replicate)] else []) ++
  (if a.Size then [("size", JValue.bool a.Size)] else []) ++
  (if a.Timestamp then [("timestamp", JValue.bool a.Timestamp)] else [])

/-- Marshal `Args`. -/
def encodeArgs (a : Args) : JValue :=
  JValue.obj (argsMembers a)

/-- The members of a marshalled `RodsItem` that precede `contents`, in
struct order: every field carries omitempty, so empty strings, zero size
and empty slices are omitted. -/
def itemHeadMembers (f d p n c : String) (sz : Nat) (acls : List ACL)
    (avus : List AVU) : List (String × JValue) :=
  (if f = "" then [] else [("file", JValue.str f)]) ++
    (if d = "" then [] else [("directory", JValue.str d)]) ++
    (if p = "" then [] else [("collection", JValue.str p)]) ++
    (if n = "" then [] else [("data_object", JValue.str n)]) ++
    (if c = "" then [] else [("checksum", JValue.str c)]) ++
    (if sz = 0 then [] else [("size", JValue.num (Int.ofNat sz))]) ++
    (if acls = [] then []
     else [("access", JValue.arr (acls.map encodeACL))]) ++
    (if avus = [] then []
     else [("avus", JValue.arr (avus.map encodeAVU))])

/-- The members of a marshalled `RodsItem` that follow `contents`, in
struct order, with their omitempty behaviour. -/
def itemTailMembers (reps : List Replicate) (tss : List Timestamp) :
    List (String × JValue) :=
  (if reps = [] then []
   else [("replicates", JValue.arr (reps.map encodeReplicate))]) ++
    (if tss = [] then []
     else [("timestamps", JValue.arr (tss.map encodeTimestamp))])

mutual

/-- Marshal a `RodsItem` (rodsitem.go:440-464): the members in struct
order under their frozen wire names — the head members, then the
recursively marshalled `contents` when non-empty, then the tail members. -/
def encodeItem : RodsItem → JValue
  | RodsItem.mk f d p n c sz acls avus contents reps tss =>
      JValue.obj
        (itemHeadMembers f d p n c sz acls avus ++
          (if contents.isEmpty then []
           else [("contents", JValue.arr (encodeItemList contents))]) ++
          itemTailMembers reps tss)

/-- Marshal a list of items, in order. -/
def encodeItemList : List RodsItem → List JValue
  | [] => []
  | i :: is => encodeItem i :: encodeItemList is

end

/-- Marshal a `ResultWrapper` (both fields are omitempty pointers). -/
def encodeResult (r : ResultWrapper) : JValue :=
  JValue.obj
    ((match r.Item with
      | none => []
      | some i => [("single", encodeItem i)]) ++
      (match r.ListItems with
       | none => []
       | some items => [("multiple", JValue.arr (encodeItemList items))]))

/-- Marshal an `ErrorMsg` (no omitempty). -/
def encodeErrorMsg (m : ErrorMsg) : JValue :=
  JValue.obj [("message", JValue.str m.Message), ("code", JValue.num m.Code)]

/-- Marshal an `Envelope` (client.go:95-106): `operation`, `arguments` and
`target` are unconditional; the `result` and `error` pointers carry
omitempty and are dropped when nil. -/
def encodeEnvelope (e : Envelope) : JValue :=
  JValue.obj
    ([("operation", JValue.str e.Operation),
      ("arguments", encodeArgs e.Arguments),
      ("target", encodeItem e.Target)] ++
      (match e.Result with
       | none => []
       | some r => [("result", encodeResult r)]) ++
      (match e.ErrMsg with
       | none => []
       | some m => [("error", encodeErrorMsg m)]))

/-- Unmarshal an `ACL` by processing the object's members in order over
the zero value (later duplicates overwrite, unknown keys are ignored, a
type mismatch fails). -/
def decodeACLMembers : List (String × JValue) → ACL → Option ACL
  | [], acc => some acc
  | (k, v) :: rest, acc =>
      if k = "owner" then
        match v with
        | JValue.str s => decodeACLMembers rest { acc with Owner := s }
        | _ => none
      else if k = "level" then
        match v with
        | JValue.str s => decodeACLMembers rest { acc with Level := s }
        | _ => none
      else if k = "zone" then
        match v with
        | JValue.str s => decodeACLMembers rest { acc with Zone := s }
        | _ => none
      else decodeACLMembers rest acc

/-- Unmarshal a JSON value into an `ACL`. -/
def decodeACL : JValue → Option ACL
  | JValue.obj members => decodeACLMembers members ⟨"", "", ""⟩
  | _ => none

/-- Unmarshal the elements of a JSON array into `ACL`s. -/
def decodeACLList : List JValue → Option (List ACL)
  | [] => some []
  | v :: vs =>
      match decodeACL v, decodeACLList vs with
      | some a, some as_ => some (a :: as_)
      | _, _ => none

/-- Unmarshal an `AVU`. -/
def decodeAVUMembers : List (String × JValue) → AVU → Option AVU
  | [], acc => some acc
  | (k, v) :: rest, acc =>
      if k = "attribute" then
        match v with
        | JValue.str s => decodeAVUMembers rest { acc with Attr := s }
        | _ => none
      else if k = "value" then
        match v with
        | JValue.str s => decodeAVUMembers rest { acc with Value := s }
        | _ => none
      else if k = "units" then
        match v with
        | JValue.str s => decodeAVUMembers rest { acc with Units := s }
        | _ => none
      else if k = "operator" then
        match v with
        | JValue.str s => decodeAVUMembers rest { acc with Operator := s }
        | _ => none
      else decodeAVUMembers rest acc

/-- Unmarshal a JSON value into an `AVU`. -/
def decodeAVU : JValue → Option AVU
  | JValue.obj members => decodeAVUMembers members ⟨"", "", "", ""⟩
  | _ => none

/-- Unmarshal the elements of a JSON array into `AVU`s. -/
def decodeAVUList : List JValue → Option (List AVU)
  | [] => some []
  | v :: vs =>
      match decodeAVU v, decodeAVUList vs with
      | some a, some as_ => some (a :: as_)
      | _, _ => none

/-- Unmarshal a `Replicate`; the `number` member must fit the `uint16`
field. -/
def decodeReplicateMembers :
    List (String × JValue) → Replicate → Option Replicate
  | [], acc => some acc
  | (k, v) :: rest, acc =>
      if k = "resource" then
        match v with
        | JValue.str s =>
            decodeReplicateMembers rest { acc with Resource := s }
        | _ => none
      else if k = "location" then
        match v with
        | JValue.str s =>
            decodeReplicateMembers rest { acc with Location := s }
        | _ => none
      else if k = "checksum" then
        match v with
        | JValue.str s =>
            decodeReplicateMembers rest { acc with Checksum := s }
        | _ => none
      else if k = "number" then
        match v with
        | JValue.num n =>
            if n < 0 || n ≥ 2 ^ 16 then none
            else decodeReplicateMembers rest { acc with Number := n.toNat }
        | _ => none
      else if k = "valid" then
        match v with
        | JValue.bool b =>
            decodeReplicateMembers rest { acc with Valid := b }
        | _ => none
      else decodeReplicateMembers rest acc

/-- Unmarshal a JSON value into a `Replicate`. -/
def decodeReplicate : JValue → Option Replicate
  | JValue.obj members => decodeReplicateMembers members ⟨"", "", "", 0, false⟩
  | _ => none

/-- Unmarshal the elements of a JSON array into `Replicate`s. -/
def decodeReplicateList : List JValue → Option (List Replicate)
  | [] => some []
  | v :: vs =>
      match decodeReplicate v, decodeReplicateList vs with
      | some r, some rs => some (r :: rs)
      | _, _ => none

/-- Unmarshal a `Timestamp`; the instants must be non-negative (an
RFC3339 rendering of a modelled instant) and `replicates` must fit the
64-bit `int` field. -/
def decodeTimestampMembers :
    List (String × JValue) → Timestamp → Option Timestamp
  | [], acc => some acc
  | (k, v) :: rest, acc =>
      if k = "created" then
        match v with
        | JValue.num n =>
            if n < 0 then none
            else decodeTimestampMembers rest { acc with Created := n.toNat }
        | _ => none
      else if k = "modified" then
        match v with
        | JValue.num n =>
            if n < 0 then none
            else decodeTimestampMembers rest { acc with Modified := n.toNat }
        | _ => none
      else if k = "replicates" then
        match v with
        | JValue.num n =>
            if n < -(2 ^ 63) || n ≥ 2 ^ 63 then none
            else decodeTimestampMembers rest { acc with Replicates := n }
        | _ => none
      else decodeTimestampMembers rest acc

/-- Unmarshal a JSON value into a `Timestamp`. -/
def decodeTimestamp : JValue → Option Timestamp
  | JValue.obj members => decodeTimestampMembers members ⟨0, 0, 0⟩
  | _ => none

/-- Unmarshal the elements of a JSON array into `Timestamp`s. -/
def decodeTimestampList : List JValue → Option (List Timestamp)
  | [] => some []
  | v :: vs =>
      match decodeTimestamp v, decodeTimestampList vs with
      | some t, some ts => some (t :: ts)
      | _, _ => none

/-- Apply one JSON object member to `Args` being unmarshalled: assign the
matching tagged field (failing on a type mismatch), ignore unknown keys. -/
def applyArgsMember (acc : Args) (k : String) (v : JValue) : Option Args :=
  if k = "operation" then
    match v with
    | JValue.str s => some { acc with Operation := s }
    | _ => none
  else if k = "acl" then
    match v with
    | JValue.bool b => some { acc with ACL := b }
    | _ => none
  else if k = "avu" then
    match v with
    | JValue.bool b => some { acc with AVU := b }
    | _ => none
  else if k = "checksum" then
    match v with
    | JValue.bool b => some { acc with Checksum := b }
    | _ => none
  else if k = "collection" then
    match v with
    | JValue.bool b => some { acc with Collection := b }
    | _ => none
  else if k = "contents" then
    match v with
    | JValue.bool b => some { acc with Contents := b }
    | _ => none
  else if k = "force" then
    match v with
    | JValue.bool b => some { acc with Force := b }
    | _ => none
  else if k = "object" then
    match v with
    | JValue.bool b => some { acc with Object := b }
    | _ => none
  else if k = "recurse" then
    match v with
    | JValue.bool b => some { acc with Recurse := b }
    | _ => none
  else if k = "replicate" then
    match v with
    | JValue.bool b => some { acc with Replicate := b }
    | _ => none
  else if k = "size" then
    match v with
    | JValue.bool b => some { acc with Size := b }
    | _ => none
  else if k = "timestamp" then
    match v with
    | JValue.bool b => some { acc with Timestamp := b }
    | _ => none
  else some acc

/-- Unmarshal `Args` members in order (later duplicates overwrite). -/
def decodeArgsMembers : List (String × JValue) → Args → Option Args
  | [], acc => some acc
  | (k, v) :: rest, acc =>
      match applyArgsMember acc k v with
      | some acc2 => decodeArgsMembers rest acc2
      | none => none

/-- Unmarshal a JSON value into `Args`. -/
def decodeArgs : JValue → Option Args
  | JValue.obj members => decodeArgsMembers members {}
  | _ => none

/-- The fields of a `RodsItem` being unmarshalled, initialised to the Go
zero values. -/
structure ItemFields where
  IFile : String := ""
  IDirectory : String := ""
  IPath : String := ""
  IName : String := ""
  IChecksum : String := ""
  ISize : Nat := 0
  IACLs : List ACL := []
  IAVUs : List AVU := []
  IContents : List RodsItem := []
  IReplicates : List Replicate := []
  ITimestamps : List Timestamp := []

/-- Assemble an unmarshalled `RodsItem` from its fields. -/
def ItemFields.toItem (b : ItemFields) : RodsItem :=
  RodsItem.mk b.IFile b.IDirectory b.IPath b.IName b.IChecksum b.ISize
    b.IACLs b.IAVUs b.IContents b.IReplicates b.ITimestamps

/-- Apply one JSON object member, other than `contents`, to a `RodsItem`
being unmarshalled: assign the matching tagged field (the `size` member
must fit the `uint64` field, a type mismatch fails), ignore unknown keys.
The recursive `contents` member is handled by `decodeItemMembers`. -/
def applyItemMember (acc : ItemFields) (k : String) (v : JValue) :
    Option ItemFields :=
  if k = "file" then
    match v with
    | JValue.str s => some { acc with IFile := s }
    | _ => none
  else if k = "directory" then
    match v with
    | JValue.str s => some { acc with IDirectory := s }
    | _ => none
  else if k = "collection" then
    match v with
    | JValue.str s => some { acc with IPath := s }
    | _ => none
  else if k = "data_object" then
    match v with
    | JValue.str s => some { acc with IName := s }
    | _ => none
  else if k = "checksum" then
    match v with
    | JValue.str s => some { acc with IChecksum := s }
    | _ => none
  else if k = "size" then
    match v with
    | JValue.num n =>
        if n < 0 || n ≥ 2 ^ 64 then none
        else some { acc with ISize := n.toNat }
    | _ => none
  else if k = "access" then
    match v with
    | JValue.arr xs =>
        match decodeACLList xs with
        | some as_ => some { acc with IACLs := as_ }
        | none => none
    | _ => none
  else if k = "avus" then
    match v with
    | JValue.arr xs =>
        match decodeAVUList xs with
        | some as_ => some { acc with IAVUs := as_ }
        | none => none
    | _ => none
  else if k = "replicates" then
    match v with
    | JValue.arr xs =>
        match decodeReplicateList xs with
        | some rs => some { acc with IReplicates := rs }
        | none => none
    | _ => none
  else if k = "timestamps" then
    match v with
    | JValue.arr xs =>
        match decodeTimestampList xs with
        | some ts => some { acc with ITimestamps := ts }
        | none => none
    | _ => none
  else some acc

mutual

/-- Unmarshal the value of a `contents` member: it must be an array of
items. -/
def decodeContentsValue : JValue → Option (List RodsItem)
  | JValue.arr xs => decodeItemList xs
  | _ => none

/-- Unmarshal the members of a `RodsItem` object in order (later
duplicates overwrite): the recursive `contents` member is unmarshalled
with `decodeContentsValue`; every other member goes through
`applyItemMember`. -/
def decodeItemMembers :
    List (String × JValue) → ItemFields → Option ItemFields
  | [], acc => some acc
  | (k, v) :: rest, acc =>
      if k = "contents" then
        match decodeContentsValue v with
        | some items =>
            decodeItemMembers rest { acc with IContents := items }
        | none => none
      else
        match applyItemMember acc k v with
        | some acc2 => decodeItemMembers rest acc2
        | none => none

/-- Unmarshal a JSON value into a `RodsItem`. -/
def decodeItem : JValue → Option RodsItem
  | JValue.obj members =>
      match decodeItemMembers members {} with
      | some b => some b.toItem
      | none => none
  | _ => none

/-- Unmarshal the elements of a JSON array into `RodsItem`s. -/
def decodeItemList : List JValue → Option (List RodsItem)
  | [] => some []
  | v :: vs =>
      match decodeItem v, decodeItemList vs with
      | some i, some is => some (i :: is)
      | _, _ => none

end

/-- Unmarshal a `ResultWrapper` (wire keys "single" and "multiple"). -/
def decodeResultMembers :
    List (String × JValue) → ResultWrapper → Option ResultWrapper
  | [], acc => some acc
  | (k, v) :: rest, acc =>
      if k = "single" then
        match decodeItem v with
        | some i => decodeResultMembers rest { acc with Item := some i }
        | none => none
      else if k = "multiple" then
        match v with
        | JValue.arr xs =>
            match decodeItemList xs with
            | some items =>
                decodeResultMembers rest { acc with ListItems := some items }
            | none => none
        | _ => none
      else decodeResultMembers rest acc

/-- Unmarshal a JSON value into a `ResultWrapper`. -/
def decodeResult : JValue → Option ResultWrapper
  | JValue.obj members => decodeResultMembers members {}
  | _ => none

/-- Unmarshal an `ErrorMsg`; `code` must fit the `int32` field. -/
def decodeErrorMsgMembers :
    List (String × JValue) → ErrorMsg → Option ErrorMsg
  | [], acc => some acc
  | (k, v) :: rest, acc =>
      if k = "message" then
        match v with
        | JValue.str s => decodeErrorMsgMembers rest { acc with Message := s }
        | _ => none
      else if k = "code" then
        match v with
        | JValue.num n =>
            if n < -(2 ^ 31) || n ≥ 2 ^ 31 then none
            else decodeErrorMsgMembers rest { acc with Code := n }
        | _ => none
      else decodeErrorMsgMembers rest acc

/-- Unmarshal a JSON value into an `ErrorMsg`. -/
def decodeErrorMsg : JValue → Option ErrorMsg
  | JValue.obj members => decodeErrorMsgMembers members ⟨"", 0⟩
  | _ => none

/-- Unmarshal the members of an `Envelope` object in order. -/
def decodeEnvelopeMembers :
    List (String × JValue) → Envelope → Option Envelope
  | [], acc => some acc
  | (k, v) :: rest, acc =>
      if k = "operation" then
        match v with
        | JValue.str s =>
            decodeEnvelopeMembers rest { acc with Operation := s }
        | _ => none
      else if k = "arguments" then
        match decodeArgs v with
        | some a => decodeEnvelopeMembers rest { acc with Arguments := a }
        | none => none
      else if k = "target" then
        match decodeItem v with
        | some t => decodeEnvelopeMembers rest { acc with Target := t }
        | none => none
      else if k = "result" then
        match decodeResult v with
        | some r =>
            decodeEnvelopeMembers rest { acc with Result := some r }
        | none => none
      else if k = "error" then
        match decodeErrorMsg v with
        | some m => decodeEnvelopeMembers rest { acc with ErrMsg := some m }
        | none => none
      else decodeEnvelopeMembers rest acc

/-- Unmarshal a JSON value into an `Envelope` over the Go zero value. -/
def decodeEnvelope : JValue → Option Envelope
  | JValue.obj members =>
      decodeEnvelopeMembers members
        { Operation := "", Arguments := {}, Target := zeroRodsItem }
  | _ => none

mutual

/-- The machine-width ranges a `RodsItem` built by the Go code satisfies
by construction: `ISize` fits `uint64`, every replicate `Number` fits
`uint16`, every timestamp `Replicates` fits `int`, recursively through
`IContents`. -/
def wfItem : RodsItem → Bool
  | RodsItem.mk _ _ _ _ _ sz _ _ contents reps tss =>
      decide (sz < 2 ^ 64) &&
      reps.all (fun r => decide (r.Number < 2 ^ 16)) &&
      tss.all (fun t =>
        decide (-(2 ^ 63) ≤ t.Replicates) && decide (t.Replicates < 2 ^ 63)) &&
      wfItemList contents

/-- `wfItem` on every element of a list. -/
def wfItemList : List RodsItem → Bool
  | [] => true
  | i :: is => wfItem i && wfItemList is

end

/-- A concrete request envelope: a list request with the AVU and Contents
flags, on a collection target carrying an ACL, an AVU and one nested
data-object item. -/
def exampleRequestEnvelope : Envelope :=
  { Operation := "list",
    Arguments := { AVU := true, Contents := true },
    Target := RodsItem.mk "" "" "/testZone/home/irods" "" "" 0
      [ACL.mk "irods" "own" "testZone"] [AVU.mk "a" "b" "" ""]
      [RodsItem.mk "" "" "/testZone/home/irods" "obj.txt" "" 0 [] [] []
        [] []]
      [] [] }

end Extendo

namespace Extendo

/-! ## Theorems for C1 and C10 -/

/-- C1: for every request dispatched via `Client.send`, a response-timeout
expiry is never surfaced as an error while the sub-process is running: the
loop re-arms the timer and waits again (the loop's value over
`timeoutExpiry true :: rest` equals its value over `rest`, and no prefix of
expiries while running can produce an error); a timeout expiry observed
while the client is no longer running makes the dispatch fail with the
receive error, and every receive error arises exactly that way: at its
first decisive event, a timeout expiry with the running flag false,
preceded only by timeout expiries with the flag true. -/
theorem send_timeout_never_errs_while_running (evs rest : List RecvEvent) :
    sendWait (RecvEvent.timeoutExpiry true :: rest) = sendWait rest ∧
    sendWait (RecvEvent.timeoutExpiry false :: rest) =
      some (Except.error GoError.receiveFailed) ∧
    (sendWait evs = some (Except.error GoError.receiveFailed) →
      ∃ n, evs.get? n = some (RecvEvent.timeoutExpiry false) ∧
        ∀ k, k < n → evs.get? k = some (RecvEvent.timeoutExpiry true)) := by
  refine ⟨rfl, rfl, ?_⟩
  induction evs with
  | nil => intro h; simp [sendWait] at h
  | cons e tl ih =>
      intro h
      match e with
      | RecvEvent.response line => simp [sendWait] at h
      | RecvEvent.timeoutExpiry true =>
          have h' : sendWait tl = some (Except.error GoError.receiveFailed) := h
          obtain ⟨n, hn, hk⟩ := ih h'
          refine ⟨n + 1, by simpa using hn, ?_⟩
          intro k hk'
          match k with
          | 0 => rfl
          | k + 1 => exact hk k (Nat.lt_of_succ_lt_succ hk')
      | RecvEvent.timeoutExpiry false =>
          exact ⟨0, rfl, fun k hk => absurd hk (Nat.not_lt_zero k)⟩

/-- Witness for C1: a concrete run in which the timer expires once while
the client is running (the loop keeps waiting) and then expires with the
client stopped, producing the receive error with the guaranteed shape. -/
theorem send_timeout_never_errs_while_running_witness :
    sendWait [RecvEvent.timeoutExpiry true, RecvEvent.timeoutExpiry false] =
      some (Except.error GoError.receiveFailed) ∧
    ∃ n, [RecvEvent.timeoutExpiry true,
          RecvEvent.timeoutExpiry false].get? n =
            some (RecvEvent.timeoutExpiry false) ∧
      ∀ k, k < n →
        [RecvEvent.timeoutExpiry true,
         RecvEvent.timeoutExpiry false].get? k =
          some (RecvEvent.timeoutExpiry true) :=
  ⟨rfl,
    (send_timeout_never_errs_while_running
      [RecvEvent.timeoutExpiry true, RecvEvent.timeoutExpiry false] []).2.2
      rfl⟩

/-- C10: `ListItem` rejects a request with `Recurse` set with an error,
without dispatching it; otherwise it dispatches exactly once and returns an
error whenever the list operation yields zero items or more than one item,
and returns a single item exactly when the list result has exactly one
element. -/
theorem listItem_single_or_error {Item : Type} (args : Args)
    (execResult : Except GoError (List Item)) :
    (args.Recurse = true →
      ListItem args execResult =
        (false,
         Except.error (GoError.other "invalid argument: Recurse=true"))) ∧
    (args.Recurse = false →
      (ListItem args execResult).1 = true ∧
      (∀ x, (ListItem args execResult).2 = Except.ok x ↔
        execResult = Except.ok [x])) := by
  constructor
  · intro h; simp [ListItem, h]
  · intro h
    constructor
    · simp only [ListItem, h]
      cases execResult with
      | error e => rfl
      | ok items =>
          match items with
          | [] => rfl
          | [x] => rfl
          | x :: y :: tl => rfl
    · intro x
      simp only [ListItem, h]
      cases execResult with
      | error e => simp
      | ok items =>
          match items with
          | [] => simp
          | [y] => simp
          | y :: z :: tl => simp

/-- Witness for C10: with `Recurse` unset and a one-element list result the
dispatch happens and the single item is returned; the `Recurse` rejection
is exercised at a concrete recursive request. -/
theorem listItem_single_or_error_witness :
    (@ListItem Nat { Recurse := true } (Except.ok [7]) =
      (false,
       Except.error (GoError.other "invalid argument: Recurse=true"))) ∧
    ((@ListItem Nat {} (Except.ok [7])).1 = true ∧
      ((@ListItem Nat {} (Except.ok [7])).2 = Except.ok 7 ↔
        (Except.ok [7] : Except GoError (List Nat)) = Except.ok [7])) :=
  ⟨(listItem_single_or_error { Recurse := true } (Except.ok [7])).1 rfl,
    ((listItem_single_or_error {} (Except.ok [7])).2 rfl).1,
    ((listItem_single_or_error {} (Except.ok [7])).2 rfl).2 7⟩

/-! ## Theorems for C5 and C6 -/

/-- Go byte-wise string comparison is asymmetric. -/
theorem strLtB_asymm (x : List Char) :
    ∀ y, strLtB x y = true → strLtB y x = false := by
  induction x with
  | nil =>
      intro y h
      cases y with
      | nil => simp [strLtB] at h
      | cons d ds => rfl
  | cons c cs ih =>
      intro y h
      cases y with
      | nil => simp [strLtB] at h
      | cons d ds =>
          simp only [strLtB] at h ⊢
          by_cases h1 : c < d
          · have h2 : ¬ d < c := lt_asymm h1
            simp [h1, h2]
          · by_cases h2 : d < c
            · simp [h1, h2] at h
            · simp only [if_neg h1, if_neg h2] at h ⊢
              exact ih ds h

/-- Go byte-wise string comparison: the negation of strict comparison is
transitive (it is the associated total preorder). -/
theorem strLtB_neg_trans (x : List Char) :
    ∀ y z, strLtB y x = false → strLtB z y = false → strLtB z x = false := by
  induction x with
  | nil =>
      intro y z h1 h2
      cases z with
      | nil => rfl
      | cons e es => rfl
  | cons c cs ih =>
      intro y z h1 h2
      cases y with
      | nil => simp [strLtB] at h1
      | cons d ds =>
          cases z with
          | nil => simp [strLtB] at h2
          | cons e es =>
              simp only [strLtB] at h1 h2 ⊢
              by_cases hdc : d < c
              · simp [hdc] at h1
              · by_cases hed : e < d
                · simp [hed] at h2
                · have hec : ¬ e < c := fun h =>
                    absurd (lt_of_lt_of_le h (not_lt.mp hdc)) hed
                  by_cases hce : c < e
                  · simp [hec, hce]
                  · have hcd : c = d :=
                      le_antisymm (not_lt.mp hdc)
                        (le_trans (not_lt.mp hed) (not_lt.mp hce))
                    have hde : d = e :=
                      le_antisymm (not_lt.mp hed)
                        (le_trans (not_lt.mp hce) (not_lt.mp hdc))
                    have hcd' : ¬ c < d := by simp [hcd]
                    have hde' : ¬ d < e := by simp [hde]
                    have h1' : strLtB ds cs = false := by
                      simpa [hdc, hcd'] using h1
                    have h2' : strLtB es ds = false := by
                      simpa [hed, hde'] using h2
                    simp only [if_neg hec, if_neg hce]
                    exact ih ds es h1' h2'

/-- C5 (failing evaluation): with `baton-do` present in both directories of
the search path "/a:/b", `FindBaton` returns the match from the *last*
directory, "/b/baton-do", because the loop over directories never breaks
after a hit; the claim (and the function's own doc comment) promise the
first match "/a/baton-do". Moreover with an *empty* search path the split
produces the single empty directory, the glob pattern degenerates to the
relative name "baton-do", and a matching file in the working directory is
found and returned, although the claim says no search is performed then. -/
theorem findBaton_returns_last_match :
    FindBaton (fun p => p == "/a/baton-do" || p == "/b/baton-do") "/a:/b" =
      Except.ok "/b/baton-do" ∧
    (Except.ok "/b/baton-do" : Except String String) ≠
      Except.ok "/a/baton-do" ∧
    FindBaton (fun p => p == "baton-do") "" = Except.ok "baton-do" := by
  refine ⟨by rfl, by simp, by rfl⟩

/-! ## Theorems for C2, C3 and C4 -/

/-- On a closed pool one `getWithTimeout` attempt fails (with the timeout
error when the timer budget is exhausted, else with `errPoolClosed`) and
leaves the pool unchanged. -/
theorem getWithTimeout_closed_fails (pool : PoolState)
    (s : Except GoError ClientState) (h : pool.isOpen = false) :
    ∀ fuel, ∃ e, ClientPool.getWithTimeout pool s fuel =
      (Except.error e, pool) := by
  intro fuel
  cases fuel with
  | zero => exact ⟨GoError.getTimeout, rfl⟩
  | succ fuel => exact ⟨GoError.poolClosed,
      by simp [ClientPool.getWithTimeout, h]⟩

/-- On a closed pool the retry loop of `getWithRetries` exhausts every try
and returns the "failed after N tries" error, leaving the pool unchanged. -/
theorem getRetryLoop_closed_exhausts (fuel maxRetries : Nat)
    (pool : PoolState) (h : pool.isOpen = false) :
    ∀ remaining (spawns : Nat → Except GoError ClientState),
      ClientPool.getRetryLoop spawns fuel maxRetries remaining pool =
        (Except.error (GoError.acquireExhausted maxRetries), pool) := by
  intro remaining
  induction remaining with
  | zero => intro spawns; rfl
  | succ remaining ih =>
      intro spawns
      obtain ⟨e, he⟩ := getWithTimeout_closed_fails pool (spawns 0) h fuel
      simp only [ClientPool.getRetryLoop, he]
      exact ih _

/-- C2 (amended): after `Close()` the pool is closed; every acquisition
attempt inside `Get()` then fails with the pool-closed error, and `Get()`
itself — which retries every attempt and then reports exhaustion — returns
the "failed to get a client from the pool after N tries" error (not the
pool-closed error); every `Return(c)` returns nil and leaves the returned
client stopped, ignoring any stop error. -/
theorem closed_pool_get_fails_return_stops (pool : PoolState)
    (spawns : Nat → Except GoError ClientState)
    (s : Except GoError ClientState) (fuel : Nat) (c : ClientState) :
    ((ClientPool.Close pool).1.isOpen = false) ∧
    ((ClientPool.getWithTimeout (ClientPool.Close pool).1 s (fuel + 1)).1 =
      Except.error GoError.poolClosed) ∧
    ((ClientPool.Get (ClientPool.Close pool).1 spawns fuel).1 =
      Except.error (GoError.acquireExhausted pool.getMaxRetries)) ∧
    ((ClientPool.Return (ClientPool.Close pool).1 c).1 = none) ∧
    (((ClientPool.Return (ClientPool.Close pool).1 c).2.2).isRunning =
      false) := by
  have hP : (ClientPool.Close pool).1.isOpen = false := by
    cases hb : pool.isOpen <;> simp [ClientPool.Close, hb]
  have hR : (ClientPool.Close pool).1.getMaxRetries = pool.getMaxRetries := by
    cases hb : pool.isOpen <;> simp [ClientPool.Close, hb]
  refine ⟨hP, by simp [ClientPool.getWithTimeout, hP], ?_, ?_, ?_⟩
  · rw [ClientPool.Get,
      getRetryLoop_closed_exhausts fuel _ _ hP _ spawns, hR]
  · simp [ClientPool.Return, hP]
  · simp only [ClientPool.Return, hP, Bool.not_false, if_pos]
    by_cases hc : c.errConsumed <;>
      simp [Client.StopIgnoreError, Client.Stop, hc]

/-- C2 (counterexample): on a concrete closed pool (no idle clients,
population 0, `maxSize` 10, `getMaxRetries` 3), `Get()` returns the
retries-exhausted error, which is not the pool-closed error the claim
promises. -/
theorem get_on_closed_pool_not_poolClosed :
    (ClientPool.Get ⟨false, [], 0, 10, 3⟩
      (fun _ => Except.error (GoError.spawnError "unused")) 1).1 =
      Except.error (GoError.acquireExhausted 3) ∧
    (Except.error (GoError.acquireExhausted 3) :
      Except GoError ClientState) ≠ Except.error GoError.poolClosed := by
  refine ⟨rfl, ?_⟩
  intro h
  injection h with h2
  exact GoError.noConfusion h2

/-- C3 (amended): `Return` never fails except in exactly one situation:
the pool is open, the client is running and the idle stack is already at
`maxSize`; then it stops the client and propagates the stop error, i.e.
the not-yet-collected terminal error of the sub-process. In every other
state it returns nil: a closed pool stops the client (ignoring errors), a
non-running client decrements the `uint8` population (mod 256), and a
running client is parked on top of the idle stack while the idle count is
below the maximum. -/
theorem return_fails_only_when_full (pool : PoolState) (c : ClientState) :
    ((pool.isOpen = false ∨ c.isRunning = false ∨
        pool.clients.length < pool.maxSize) →
      (ClientPool.Return pool c).1 = none) ∧
    ((ClientPool.Return pool c).1 ≠ none →
      pool.isOpen = true ∧ c.isRunning = true ∧
      pool.maxSize ≤ pool.clients.length ∧
      c.errConsumed = false ∧
      (ClientPool.Return pool c).1 = c.terminalErr) ∧
    (pool.isOpen = false →
      ((ClientPool.Return pool c).2.2).isRunning = false) ∧
    (pool.isOpen = true → c.isRunning = false →
      ((ClientPool.Return pool c).2.1).numClients =
        (pool.numClients + 255) % 256) ∧
    (pool.isOpen = true → c.isRunning = true →
      pool.clients.length < pool.maxSize →
      ((ClientPool.Return pool c).2.1).clients = pool.clients ++ [c]) := by
  refine ⟨?_, ?_, ?_, ?_, ?_⟩
  · intro h
    rcases h with h | h | h
    · simp [ClientPool.Return, h]
    · cases hb : pool.isOpen <;> simp [ClientPool.Return, hb, h]
    · cases hb : pool.isOpen
      · simp [ClientPool.Return, hb]
      · cases hc : c.isRunning <;>
          simp [ClientPool.Return, hb, hc, h]
  · intro h
    cases hb : pool.isOpen
    · exact absurd (by simp [ClientPool.Return, hb]) h
    · cases hc : c.isRunning
      · exact absurd (by simp [ClientPool.Return, hb, hc]) h
      · by_cases hlen : pool.clients.length < pool.maxSize
        · exact absurd (by simp [ClientPool.Return, hb, hc, hlen]) h
        · refine ⟨rfl, rfl, Nat.le_of_not_lt hlen, ?_, ?_⟩
          · by_cases hcons : c.errConsumed
            · exact absurd
                (by simp [ClientPool.Return, hb, hc, hlen,
                  Client.Stop, hcons]) h
            · simpa using hcons
          · by_cases hcons : c.errConsumed
            · exact absurd
                (by simp [ClientPool.Return, hb, hc, hlen,
                  Client.Stop, hcons]) h
            · simp [ClientPool.Return, hb, hc, hlen, Client.Stop, hcons]
  · intro h
    simp only [ClientPool.Return, h, Bool.not_false, if_pos]
    by_cases hcons : c.errConsumed <;>
      simp [Client.StopIgnoreError, Client.Stop, hcons]
  · intro hb hc
    simp [ClientPool.Return, hb, hc]
  · intro hb hc hlen
    simp [ClientPool.Return, hb, hc, hlen]

/-- Witness for C3 (amended), at concrete states: an open pool with a free
slot parks a returned running client and returns nil, and the same pool,
once closed, returns nil and stops the client. -/
theorem return_fails_only_when_full_witness :
    (ClientPool.Return ⟨true, [], 1, 2, 3⟩ ⟨true, none, false⟩).1 = none ∧
    ((ClientPool.Return ⟨true, [], 1, 2, 3⟩
      ⟨true, none, false⟩).2.1).clients = [⟨true, none, false⟩] ∧
    ((ClientPool.Return ⟨false, [], 1, 2, 3⟩
      ⟨true, none, false⟩).2.2).isRunning = false :=
  ⟨(return_fails_only_when_full ⟨true, [], 1, 2, 3⟩ ⟨true, none, false⟩).1
      (Or.inr (Or.inr (by decide))),
   (return_fails_only_when_full ⟨true, [], 1, 2, 3⟩
      ⟨true, none, false⟩).2.2.2.2 rfl rfl (by decide),
   (return_fails_only_when_full ⟨false, [], 1, 2, 3⟩
      ⟨true, none, false⟩).2.2.1 rfl⟩

/-- C3 (counterexample): returning a running client to an open pool whose
idle stack is at capacity (`maxSize` 0) propagates the client's stop
error: with the terminal error "exit status 1" still unconsumed, `Return`
returns that non-nil error, so `Return` is not infallible. -/
theorem return_to_full_pool_can_fail :
    (ClientPool.Return ⟨true, [], 0, 0, 3⟩
      ⟨true, some (GoError.subprocessError "exit status 1"), false⟩).1 =
      some (GoError.subprocessError "exit status 1") ∧
    some (GoError.subprocessError "exit status 1") ≠
      (none : Option GoError) := by
  exact ⟨rfl, by simp⟩

/-- C4 (amended): for every started client on which `Stop` has not yet
been called, the second and every later `Stop()` return nil — the receive
from the now closed and drained one-shot error channel — so a repeated
`Stop()` agrees with the first call exactly when the sub-process exited
without error. -/
theorem stop_second_call_returns_nil (c : ClientState)
    (h : c.errConsumed = false) :
    (Client.Stop (Client.Stop c).2).1 = none ∧
    (Client.Stop (Client.Stop (Client.Stop c).2).2).1 = none ∧
    ((Client.Stop (Client.Stop c).2).1 = (Client.Stop c).1 ↔
      c.terminalErr = none) := by
  refine ⟨by simp [Client.Stop, h], by simp [Client.Stop, h], ?_⟩
  simp [Client.Stop, h, eq_comm]

/-- Witness for C4 (amended): a freshly started client whose sub-process
exits cleanly; the second and third `Stop()` return nil, agreeing with the
first. -/
theorem stop_second_call_returns_nil_witness :
    (⟨true, none, false⟩ : ClientState).errConsumed = false ∧
    ((Client.Stop (Client.Stop (⟨true, none, false⟩ : ClientState)).2).1 =
        none ∧
      (Client.Stop (Client.Stop
        (Client.Stop (⟨true, none, false⟩ : ClientState)).2).2).1 = none ∧
      ((Client.Stop (Client.Stop (⟨true, none, false⟩ : ClientState)).2).1 =
          (Client.Stop (⟨true, none, false⟩ : ClientState)).1 ↔
        (⟨true, none, false⟩ : ClientState).terminalErr = none)) :=
  ⟨rfl, stop_second_call_returns_nil ⟨true, none, false⟩ rfl⟩

/-- C4 (counterexample): a started client whose sub-process terminated
with error "exit status 1": the first `Stop()` returns that error, the
second returns nil, so the second call does not return the value the first
call returned. -/
theorem stop_twice_differs :
    (Client.Stop (Client.Stop
      ⟨true, some (GoError.subprocessError "exit status 1"), false⟩).2).1 ≠
    (Client.Stop
      ⟨true, some (GoError.subprocessError "exit status 1"), false⟩).1 := by
  simp [Client.Stop]

/-! ## Round-trip lemmas for the envelope codec (C9) -/

/-- Unmarshalling a marshalled `ACL` restores it. -/
theorem decodeACL_encodeACL (a : ACL) : decodeACL (encodeACL a) = some a := by
  cases a
  simp [encodeACL, decodeACL, decodeACLMembers]

/-- Unmarshalling a marshalled `ACL` array restores it. -/
theorem decodeACLList_map (l : List ACL) :
    decodeACLList (l.map encodeACL) = some l := by
  induction l with
  | nil => rfl
  | cons a rest ih =>
      simp [decodeACLList, decodeACL_encodeACL, ih]

/-- Unmarshalling a marshalled `AVU` restores it. -/
theorem decodeAVU_encodeAVU (a : AVU) : decodeAVU (encodeAVU a) = some a := by
  obtain ⟨attr, v, u, o⟩ := a
  by_cases hu : u = "" <;> by_cases ho : o = "" <;>
    simp [encodeAVU, decodeAVU, decodeAVUMembers, hu, ho]

/-- Unmarshalling a marshalled `AVU` array restores it. -/
theorem decodeAVUList_map (l : List AVU) :
    decodeAVUList (l.map encodeAVU) = some l := by
  induction l with
  | nil => rfl
  | cons a rest ih =>
      simp [decodeAVUList, decodeAVU_encodeAVU, ih]

/-- Unmarshalling a marshalled `Replicate` restores it when its number
fits `uint16` (as it does for every value of the Go field). -/
theorem decodeReplicate_encodeReplicate (r : Replicate)
    (h : r.Number < 2 ^ 16) :
    decodeReplicate (encodeReplicate r) = some r := by
  obtain ⟨res, loc, chk, num, valid⟩ := r
  have h' : num < 2 ^ 16 := h
  simp [encodeReplicate, decodeReplicate, decodeReplicateMembers]
  omega

/-- Unmarshalling a marshalled `Replicate` array restores it. -/
theorem decodeReplicateList_map (l : List Replicate)
    (h : ∀ r ∈ l, r.Number < 2 ^ 16) :
    decodeReplicateList (l.map encodeReplicate) = some l := by
  induction l with
  | nil => rfl
  | cons r rest ih =>
      simp [decodeReplicateList,
        decodeReplicate_encodeReplicate r (h r (by simp)),
        ih (fun x hx => h x (by simp [hx]))]

/-- Unmarshalling a marshalled `Timestamp` restores it when its
`Replicates` fits the 64-bit `int` field. -/
theorem decodeTimestamp_encodeTimestamp (t : Timestamp)
    (h1 : -(2 ^ 63) ≤ t.Replicates) (h2 : t.Replicates < 2 ^ 63) :
    decodeTimestamp (encodeTimestamp t) = some t := by
  obtain ⟨cr, mo, rep⟩ := t
  have h1' : -(2 ^ 63) ≤ rep := h1
  have h2' : rep < 2 ^ 63 := h2
  by_cases hr : rep = 0
  · simp [encodeTimestamp, decodeTimestamp, decodeTimestampMembers, hr]
  · simp [encodeTimestamp, decodeTimestamp, decodeTimestampMembers, hr]
    omega

/-- Unmarshalling a marshalled `Timestamp` array restores it. -/
theorem decodeTimestampList_map (l : List Timestamp)
    (h : ∀ t ∈ l, -(2 ^ 63) ≤ t.Replicates ∧ t.Replicates < 2 ^ 63) :
    decodeTimestampList (l.map encodeTimestamp) = some l := by
  induction l with
  | nil => rfl
  | cons t rest ih =>
      simp [decodeTimestampList,
        decodeTimestamp_encodeTimestamp t (h t (by simp)).1 (h t (by simp)).2,
        ih (fun x hx => h x (by simp [hx]))]

/-- Unmarshalling `Args` members distributes over concatenation. -/
theorem decodeArgsMembers_append (l1 l2 : List (String × JValue)) :
    ∀ acc, decodeArgsMembers (l1 ++ l2) acc =
      (decodeArgsMembers l1 acc).bind (fun a => decodeArgsMembers l2 a) := by
  induction l1 with
  | nil => intro acc; simp [decodeArgsMembers]
  | cons kv rest ih =>
      intro acc
      obtain ⟨k, v⟩ := kv
      simp only [List.cons_append, decodeArgsMembers]
      cases applyArgsMember acc k v with
      | none => rfl
      | some acc2 => exact ih acc2

/-- The `operation` member block of marshalled `Args` assigns the
sub-operation tag over an accumulator that still holds the zero value. -/
theorem decodeArgsMembers_operationBlock (s : String) (acc : Args)
    (h : acc.Operation = "") :
    decodeArgsMembers
      (if s = "" then [] else [("operation", JValue.str s)]) acc =
      some { acc with Operation := s } := by
  by_cases hs : s = ""
  · subst hs
    simp only [if_pos rfl, decodeArgsMembers]
    cases acc
    simp_all
  · simp [decodeArgsMembers, applyArgsMember, hs]

/-- The `acl` flag block of marshalled `Args`. -/
theorem decodeArgsMembers_aclBlock (fl : Bool) (acc : Args)
    (h : acc.ACL = false) :
    decodeArgsMembers (if fl then [("acl", JValue.bool fl)] else []) acc =
      some { acc with ACL := fl } := by
  cases fl
  · simp only [Bool.false_eq_true, if_false, decodeArgsMembers]
    cases acc
    simp_all
  · simp [decodeArgsMembers, applyArgsMember]

/-- The `avu` flag block of marshalled `Args`. -/
theorem decodeArgsMembers_avuBlock (fl : Bool) (acc : Args)
    (h : acc.AVU = false) :
    decodeArgsMembers (if fl then [("avu", JValue.bool fl)] else []) acc =
      some { acc with AVU := fl } := by
  cases fl
  · simp only [Bool.false_eq_true, if_false, decodeArgsMembers]
    cases acc
    simp_all
  · simp [decodeArgsMembers, applyArgsMember]

/-- The `checksum` flag block of marshalled `Args`. -/
theorem decodeArgsMembers_checksumBlock (fl : Bool) (acc : Args)
    (h : acc.Checksum = false) :
    decodeArgsMembers
      (if fl then [("checksum", JValue.bool fl)] else []) acc =
      some { acc with Checksum := fl } := by
  cases fl
  · simp only [Bool.false_eq_true, if_false, decodeArgsMembers]
    cases acc
    simp_all
  · simp [decodeArgsMembers, applyArgsMember]

/-- The `collection` flag block of marshalled `Args`. -/
theorem decodeArgsMembers_collectionBlock (fl : Bool) (acc : Args)
    (h : acc.Collection = false) :
    decodeArgsMembers
      (if fl then [("collection", JValue.bool fl)] else []) acc =
      some { acc with Collection := fl } := by
  cases fl
  · simp only [Bool.false_eq_true, if_false, decodeArgsMembers]
    cases acc
    simp_all
  · simp [decodeArgsMembers, applyArgsMember]

/-- The `contents` flag block of marshalled `Args`. -/
theorem decodeArgsMembers_contentsBlock (fl : Bool) (acc : Args)
    (h : acc.Contents = false) :
    decodeArgsMembers
      (if fl then [("contents", JValue.bool fl)] else []) acc =
      some { acc with Contents := fl } := by
  cases fl
  · simp only [Bool.false_eq_true, if_false, decodeArgsMembers]
    cases acc
    simp_all
  · simp [decodeArgsMembers, applyArgsMember]

/-- The `force` flag block of marshalled `Args`. -/
theorem decodeArgsMembers_forceBlock (fl : Bool) (acc : Args)
    (h : acc.Force = false) :
    decodeArgsMembers (if fl then [("force", JValue.bool fl)] else []) acc =
      some { acc with Force := fl } := by
  cases fl
  · simp only [Bool.false_eq_true, if_false, decodeArgsMembers]
    cases acc
    simp_all
  · simp [decodeArgsMembers, applyArgsMember]

/-- The `object` flag block of marshalled `Args`. -/
theorem decodeArgsMembers_objectBlock (fl : Bool) (acc : Args)
    (h : acc.Object = false) :
    decodeArgsMembers (if fl then [("object", JValue.bool fl)] else []) acc =
      some { acc with Object := fl } := by
  cases fl
  · simp only [Bool.false_eq_true, if_false, decodeArgsMembers]
    cases acc
    simp_all
  · simp [decodeArgsMembers, applyArgsMember]

/-- The `recurse` flag block of marshalled `Args`. -/
theorem decodeArgsMembers_recurseBlock (fl : Bool) (acc : Args)
    (h : acc.Recurse = false) :
    decodeArgsMembers
      (if fl then [("recurse", JValue.bool fl)] else []) acc =
      some { acc with Recurse := fl } := by
  cases fl
  · simp only [Bool.false_eq_true, if_false, decodeArgsMembers]
    cases acc
    simp_all
  · simp [decodeArgsMembers, applyArgsMember]

/-- The `replicate` flag block of marshalled `Args`. -/
theorem decodeArgsMembers_replicateBlock (fl : Bool) (acc : Args)
    (h : acc.Replicate = false) :
    decodeArgsMembers
      (if fl then [("replicate", JValue.bool fl)] else []) acc =
      some { acc with Replicate := fl } := by
  cases fl
  · simp only [Bool.false_eq_true, if_false, decodeArgsMembers]
    cases acc
    simp_all
  · simp [decodeArgsMembers, applyArgsMember]

/-- The `size` flag block of marshalled `Args`. -/
theorem decodeArgsMembers_sizeBlock (fl : Bool) (acc : Args)
    (h : acc.Size = false) :
    decodeArgsMembers (if fl then [("size", JValue.bool fl)] else []) acc =
      some { acc with Size := fl } := by
  cases fl
  · simp only [Bool.false_eq_true, if_false, decodeArgsMembers]
    cases acc
    simp_all
  · simp [decodeArgsMembers, applyArgsMember]

/-- The `timestamp` flag block of marshalled `Args`. -/
theorem decodeArgsMembers_timestampBlock (fl : Bool) (acc : Args)
    (h : acc.Timestamp = false) :
    decodeArgsMembers
      (if fl then [("timestamp", JValue.bool fl)] else []) acc =
      some { acc with Timestamp := fl } := by
  cases fl
  · simp only [Bool.false_eq_true, if_false, decodeArgsMembers]
    cases acc
    simp_all
  · simp [decodeArgsMembers, applyArgsMember]

/-- Unmarshalling marshalled `Args` restores them. -/
theorem decodeArgs_encodeArgs (a : Args) :
    decodeArgs (encodeArgs a) = some a := by
  obtain ⟨o, acl, avu, chk, coll, cont, force, obj, rec, repl, sz, ts⟩ := a
  simp only [encodeArgs, argsMembers, decodeArgs]
  simp only [decodeArgsMembers_append]
  rw [decodeArgsMembers_operationBlock _ _ rfl]
  simp only [Option.some_bind]
  rw [decodeArgsMembers_aclBlock _ _ rfl]
  simp only [Option.some_bind]
  rw [decodeArgsMembers_avuBlock _ _ rfl]
  simp only [Option.some_bind]
  rw [decodeArgsMembers_checksumBlock _ _ rfl]
  simp only [Option.some_bind]
  rw [decodeArgsMembers_collectionBlock _ _ rfl]
  simp only [Option.some_bind]
  rw [decodeArgsMembers_contentsBlock _ _ rfl]
  simp only [Option.some_bind]
  rw [decodeArgsMembers_forceBlock _ _ rfl]
  simp only [Option.some_bind]
  rw [decodeArgsMembers_objectBlock _ _ rfl]
  simp only [Option.some_bind]
  rw [decodeArgsMembers_recurseBlock _ _ rfl]
  simp only [Option.some_bind]
  rw [decodeArgsMembers_replicateBlock _ _ rfl]
  simp only [Option.some_bind]
  rw [decodeArgsMembers_sizeBlock _ _ rfl]
  simp only [Option.some_bind]
  rw [decodeArgsMembers_timestampBlock _ _ rfl]

/-- Unmarshalling `RodsItem` members distributes over concatenation. -/
theorem decodeItemMembers_append (l1 l2 : List (String × JValue)) :
    ∀ acc, decodeItemMembers (l1 ++ l2) acc =
      (decodeItemMembers l1 acc).bind (fun a => decodeItemMembers l2 a) := by
  induction l1 with
  | nil => intro acc; simp [decodeItemMembers]
  | cons kv rest ih =>
      intro acc
      obtain ⟨k, v⟩ := kv
      simp only [List.cons_append, decodeItemMembers]
      by_cases hk : k = "contents"
      · simp only [if_pos hk]
        cases decodeContentsValue v with
        | none => rfl
        | some items => exact ih _
      · simp only [if_neg hk]
        cases applyItemMember acc k v with
        | none => rfl
        | some acc2 => exact ih acc2

/-- The `file` member block of a marshalled `RodsItem`. -/
theorem decodeItemMembers_fileBlock (s : String) (acc : ItemFields)
    (h : acc.IFile = "") :
    decodeItemMembers (if s = "" then [] else [("file", JValue.str s)])
      acc = some { acc with IFile := s } := by
  by_cases hs : s = ""
  · subst hs
    simp only [if_pos rfl, decodeItemMembers]
    cases acc
    simp_all
  · rw [if_neg hs]
    simp +decide [decodeItemMembers, applyItemMember]

/-- The `directory` member block of a marshalled `RodsItem`. -/
theorem decodeItemMembers_directoryBlock (s : String) (acc : ItemFields)
    (h : acc.IDirectory = "") :
    decodeItemMembers
      (if s = "" then [] else [("directory", JValue.str s)]) acc =
      some { acc with IDirectory := s } := by
  by_cases hs : s = ""
  · subst hs
    simp only [if_pos rfl, decodeItemMembers]
    cases acc
    simp_all
  · rw [if_neg hs]
    simp +decide [decodeItemMembers, applyItemMember]

/-- The `collection` member block of a marshalled `RodsItem`. -/
theorem decodeItemMembers_collectionBlock (s : String) (acc : ItemFields)
    (h : acc.IPath = "") :
    decodeItemMembers
      (if s = "" then [] else [("collection", JValue.str s)]) acc =
      some { acc with IPath := s } := by
  by_cases hs : s = ""
  · subst hs
    simp only [if_pos rfl, decodeItemMembers]
    cases acc
    simp_all
  · rw [if_neg hs]
    simp +decide [decodeItemMembers, applyItemMember]

/-- The `data_object` member block of a marshalled `RodsItem`. -/
theorem decodeItemMembers_dataObjectBlock (s : String) (acc : ItemFields)
    (h : acc.IName = "") :
    decodeItemMembers
      (if s = "" then [] else [("data_object", JValue.str s)]) acc =
      some { acc with IName := s } := by
  by_cases hs : s = ""
  · subst hs
    simp only [if_pos rfl, decodeItemMembers]
    cases acc
    simp_all
  · rw [if_neg hs]
    simp +decide [decodeItemMembers, applyItemMember]

/-- The `checksum` member block of a marshalled `RodsItem`. -/
theorem decodeItemMembers_checksumBlock (s : String) (acc : ItemFields)
    (h : acc.IChecksum = "") :
    decodeItemMembers
      (if s = "" then [] else [("checksum", JValue.str s)]) acc =
      some { acc with IChecksum := s } := by
  by_cases hs : s = ""
  · subst hs
    simp only [if_pos rfl, decodeItemMembers]
    cases acc
    simp_all
  · rw [if_neg hs]
    simp +decide [decodeItemMembers, applyItemMember]

/-- The `size` member block of a marshalled `RodsItem`: a `uint64` value
round-trips. -/
theorem decodeItemMembers_sizeBlock (sz : Nat) (acc : ItemFields)
    (h : acc.ISize = 0) (hsz : sz < 2 ^ 64) :
    decodeItemMembers
      (if sz = 0 then [] else [("size", JValue.num (Int.ofNat sz))]) acc =
      some { acc with ISize := sz } := by
  by_cases hs : sz = 0
  · subst hs
    simp only [if_pos rfl, decodeItemMembers]
    cases acc
    simp_all
  · rw [if_neg hs]
    simp +decide [decodeItemMembers, applyItemMember]
    split
    next acc2 heq =>
      split at heq
      next => exact absurd heq (by simp)
      next => exact heq.symm
    next heq =>
      split at heq
      next => exfalso; omega
      next => exact absurd heq (by simp)

/-- The `access` member block of a marshalled `RodsItem`. -/
theorem decodeItemMembers_accessBlock (l : List ACL) (acc : ItemFields)
    (h : acc.IACLs = []) :
    decodeItemMembers
      (if l = [] then []
       else [("access", JValue.arr (l.map encodeACL))]) acc =
      some { acc with IACLs := l } := by
  by_cases hl : l = []
  · subst hl
    simp only [if_pos rfl, decodeItemMembers]
    cases acc
    simp_all
  · rw [if_neg hl]
    simp +decide [decodeItemMembers, applyItemMember, decodeACLList_map]

/-- The `avus` member block of a marshalled `RodsItem`. -/
theorem decodeItemMembers_avusBlock (l : List AVU) (acc : ItemFields)
    (h : acc.IAVUs = []) :
    decodeItemMembers
      (if l = [] then []
       else [("avus", JValue.arr (l.map encodeAVU))]) acc =
      some { acc with IAVUs := l } := by
  by_cases hl : l = []
  · subst hl
    simp only [if_pos rfl, decodeItemMembers]
    cases acc
    simp_all
  · rw [if_neg hl]
    simp +decide [decodeItemMembers, applyItemMember, decodeAVUList_map]

/-- The `contents` member block of a marshalled `RodsItem`, given that the
nested items round-trip. -/
theorem decodeItemMembers_contentsBlock (l : List RodsItem)
    (acc : ItemFields) (h : acc.IContents = [])
    (hdec : decodeItemList (encodeItemList l) = some l) :
    decodeItemMembers
      (if l.isEmpty then []
       else [("contents", JValue.arr (encodeItemList l))]) acc =
      some { acc with IContents := l } := by
  by_cases hl : l.isEmpty
  · rw [if_pos hl]
    rw [List.isEmpty_iff] at hl
    subst hl
    simp only [decodeItemMembers]
    cases acc
    simp_all
  · rw [if_neg hl]
    simp +decide [decodeItemMembers, decodeContentsValue, hdec]

/-- The `replicates` member block of a marshalled `RodsItem`. -/
theorem decodeItemMembers_replicatesBlock (l : List Replicate)
    (acc : ItemFields) (h : acc.IReplicates = [])
    (hn : ∀ r ∈ l, r.Number < 2 ^ 16) :
    decodeItemMembers
      (if l = [] then []
       else [("replicates", JValue.arr (l.map encodeReplicate))]) acc =
      some { acc with IReplicates := l } := by
  by_cases hl : l = []
  · subst hl
    simp only [if_pos rfl, decodeItemMembers]
    cases acc
    simp_all
  · rw [if_neg hl]
    simp +decide [decodeItemMembers, applyItemMember,
      decodeReplicateList_map l hn]

/-- The `timestamps` member block of a marshalled `RodsItem`. -/
theorem decodeItemMembers_timestampsBlock (l : List Timestamp)
    (acc : ItemFields) (h : acc.ITimestamps = [])
    (hr : ∀ t ∈ l, -(2 ^ 63) ≤ t.Replicates ∧ t.Replicates < 2 ^ 63) :
    decodeItemMembers
      (if l = [] then []
       else [("timestamps", JValue.arr (l.map encodeTimestamp))]) acc =
      some { acc with ITimestamps := l } := by
  by_cases hl : l = []
  · subst hl
    simp only [if_pos rfl, decodeItemMembers]
    cases acc
    simp_all
  · rw [if_neg hl]
    simp +decide [decodeItemMembers, applyItemMember,
      decodeTimestampList_map l hr]

/-- A well-formed item list is element-wise well-formed. -/
theorem wfItemList_mem (l : List RodsItem) (h : wfItemList l = true) :
    ∀ i ∈ l, wfItem i = true := by
  induction l with
  | nil => intro i hi; cases hi
  | cons j js ih =>
      intro i hi
      rw [wfItemList, Bool.and_eq_true] at h
      rcases List.mem_cons.mp hi with hhead | htail
      · exact hhead ▸ h.1
      · exact ih h.2 i htail

/-- A list of items round-trips element-wise. -/
theorem decodeItemList_encodeItemList_of (l : List RodsItem)
    (h : ∀ i ∈ l, decodeItem (encodeItem i) = some i) :
    decodeItemList (encodeItemList l) = some l := by
  induction l with
  | nil => rfl
  | cons i is ih =>
      simp only [encodeItemList, decodeItemList, h i (by simp)]
      rw [ih (fun x hx => h x (by simp [hx]))]

/-- Unmarshalling a marshalled well-formed `RodsItem` restores it
(strong induction on the size of the item, for the nested contents). -/
theorem decodeItem_encodeItem_measure :
    ∀ N, ∀ item : RodsItem, sizeOf item < N → wfItem item = true →
      decodeItem (encodeItem item) = some item := by
  intro N
  induction N with
  | zero => intro item h _; exact absurd h (Nat.not_lt_zero _)
  | succ N ih =>
      intro item hsize hwf
      obtain ⟨f, d, p, n, c, sz, acls, avus, contents, reps, tss⟩ := item
      simp only [wfItem, Bool.and_eq_true] at hwf
      obtain ⟨⟨⟨hsz, hreps⟩, htss⟩, hcontwf⟩ := hwf
      have hsz' : sz < 2 ^ 64 := of_decide_eq_true hsz
      have hreps' : ∀ r ∈ reps, r.Number < 2 ^ 16 := by
        intro r hr
        have := (List.all_eq_true.mp hreps) r hr
        exact of_decide_eq_true this
      have htss' : ∀ t ∈ tss,
          -(2 ^ 63) ≤ t.Replicates ∧ t.Replicates < 2 ^ 63 := by
        intro t ht
        have := (List.all_eq_true.mp htss) t ht
        rw [Bool.and_eq_true] at this
        exact ⟨of_decide_eq_true this.1, of_decide_eq_true this.2⟩
      have hmem : ∀ i ∈ contents, sizeOf i < N := by
        intro i hi
        have h1 : sizeOf i < sizeOf contents := List.sizeOf_lt_of_mem hi
        have h2 : sizeOf contents <
            sizeOf (RodsItem.mk f d p n c sz acls avus contents reps
              tss) := by
          simp
          omega
        omega
      have hcontents : decodeItemList (encodeItemList contents) =
          some contents :=
        decodeItemList_encodeItemList_of contents (fun i hi =>
          ih i (hmem i hi) (wfItemList_mem contents hcontwf i hi))
      simp only [encodeItem, decodeItem]
      simp only [itemHeadMembers, itemTailMembers]
      simp only [decodeItemMembers_append]
      rw [decodeItemMembers_fileBlock _ _ rfl]
      simp only [Option.some_bind]
      rw [decodeItemMembers_directoryBlock _ _ rfl]
      simp only [Option.some_bind]
      rw [decodeItemMembers_collectionBlock _ _ rfl]
      simp only [Option.some_bind]
      rw [decodeItemMembers_dataObjectBlock _ _ rfl]
      simp only [Option.some_bind]
      rw [decodeItemMembers_checksumBlock _ _ rfl]
      simp only [Option.some_bind]
      rw [decodeItemMembers_sizeBlock _ _ rfl hsz']
      simp only [Option.some_bind]
      rw [decodeItemMembers_accessBlock _ _ rfl]
      simp only [Option.some_bind]
      rw [decodeItemMembers_avusBlock _ _ rfl]
      simp only [Option.some_bind]
      rw [decodeItemMembers_contentsBlock _ _ rfl hcontents]
      simp only [Option.some_bind]
      rw [decodeItemMembers_replicatesBlock _ _ rfl hreps']
      simp only [Option.some_bind]
      rw [decodeItemMembers_timestampsBlock _ _ rfl htss']
      rfl

/-- Scanning a conditionally-omitted member (empty in the then-branch). -/
theorem any_ite_nil_left (c : Prop) [Decidable c] (kv : String × JValue)
    (p : String × JValue → Bool) :
    (if c then ([] : List (String × JValue)) else [kv]).any p =
      if c then false else p kv := by
  split <;> simp

/-- Scanning a conditionally-omitted member (empty in the else-branch). -/
theorem any_ite_nil_right (c : Prop) [Decidable c] (kv : String × JValue)
    (p : String × JValue → Bool) :
    (if c then [kv] else ([] : List (String × JValue))).any p =
      if c then p kv else false := by
  split <;> simp

/-- Unmarshalling a marshalled request envelope. -/
theorem decodeEnvelopeMembers_request (op : String) (args : Args)
    (target : RodsItem) (h3 : wfItem target = true) :
    decodeEnvelopeMembers
      [("operation", JValue.str op), ("arguments", encodeArgs args),
       ("target", encodeItem target)]
      { Operation := "", Arguments := {}, Target := zeroRodsItem } =
      some { Operation := op, Arguments := args, Target := target } := by
  have htarget : decodeItem (encodeItem target) = some target :=
    decodeItem_encodeItem_measure (sizeOf target + 1) target
      (Nat.lt_succ_self _) h3
  simp +decide [decodeEnvelopeMembers, decodeArgs_encodeArgs, htarget]

/-- C9: for every valid request envelope — an envelope carrying an
operation, argument flags and a target, with no result and no error —
unmarshalling the marshalled form restores the envelope exactly (which is
equality up to the mandated orderings); the top level consists of exactly
the frozen keys operation/arguments/target (result and error are
omitted); and inside the arguments object each boolean flag's frozen key
is present exactly when the flag is set, so absent flags are omitted. The
well-formedness hypothesis states the machine-width ranges every
Go-constructed item has by construction. -/
theorem envelope_roundtrip (e : Envelope) (h1 : e.Result = none)
    (h2 : e.ErrMsg = none) (h3 : wfItem e.Target = true) :
    decodeEnvelope (encodeEnvelope e) = some e ∧
    encodeEnvelope e = JValue.obj
      [("operation", JValue.str e.Operation),
       ("arguments", JValue.obj (argsMembers e.Arguments)),
       ("target", encodeItem e.Target)] ∧
    ((argsMembers e.Arguments).any (fun m => m.1 == "acl") =
      e.Arguments.ACL) ∧
    ((argsMembers e.Arguments).any (fun m => m.1 == "avu") =
      e.Arguments.AVU) ∧
    ((argsMembers e.Arguments).any (fun m => m.1 == "checksum") =
      e.Arguments.Checksum) ∧
    ((argsMembers e.Arguments).any (fun m => m.1 == "collection") =
      e.Arguments.Collection) ∧
    ((argsMembers e.Arguments).any (fun m => m.1 == "contents") =
      e.Arguments.Contents) ∧
    ((argsMembers e.Arguments).any (fun m => m.1 == "force") =
      e.Arguments.Force) ∧
    ((argsMembers e.Arguments).any (fun m => m.1 == "object") =
      e.Arguments.Object) ∧
    ((argsMembers e.Arguments).any (fun m => m.1 == "recurse") =
      e.Arguments.Recurse) ∧
    ((argsMembers e.Arguments).any (fun m => m.1 == "replicate") =
      e.Arguments.Replicate) ∧
    ((argsMembers e.Arguments).any (fun m => m.1 == "size") =
      e.Arguments.Size) ∧
    ((argsMembers e.Arguments).any (fun m => m.1 == "timestamp") =
      e.Arguments.Timestamp) := by
  obtain ⟨op, args, target, res, errm⟩ := e
  simp only at h1 h2 h3
  subst h1
  subst h2
  refine ⟨?_, ?_, ?_, ?_, ?_, ?_, ?_, ?_, ?_, ?_, ?_, ?_, ?_⟩
  · simp only [encodeEnvelope, decodeEnvelope, List.append_nil]
    exact decodeEnvelopeMembers_request op args target h3
  · simp [encodeEnvelope, encodeArgs]
  all_goals (
    obtain ⟨o, acl, avu, chk, coll, cont, force, obj, rec, repl, sz,
      ts⟩ := args
    simp +decide [argsMembers, List.any_append, any_ite_nil_left,
      any_ite_nil_right])

/-- Witness for C9: the concrete list request round-trips through the
codec, its top level has exactly the three frozen keys, and exactly the
set flags (avu, contents) appear among its argument members. -/
theorem envelope_roundtrip_witness :
    (exampleRequestEnvelope.Result = none ∧
      exampleRequestEnvelope.ErrMsg = none ∧
      wfItem exampleRequestEnvelope.Target = true) ∧
    (decodeEnvelope (encodeEnvelope exampleRequestEnvelope) =
        some exampleRequestEnvelope ∧
      encodeEnvelope exampleRequestEnvelope = JValue.obj
        [("operation", JValue.str exampleRequestEnvelope.Operation),
         ("arguments",
          JValue.obj (argsMembers exampleRequestEnvelope.Arguments)),
         ("target", encodeItem exampleRequestEnvelope.Target)] ∧
      ((argsMembers exampleRequestEnvelope.Arguments).any
          (fun m => m.1 == "acl") =
        exampleRequestEnvelope.Arguments.ACL) ∧
      ((argsMembers exampleRequestEnvelope.Arguments).any
          (fun m => m.1 == "avu") =
        exampleRequestEnvelope.Arguments.AVU) ∧
      ((argsMembers exampleRequestEnvelope.Arguments).any
          (fun m => m.1 == "checksum") =
        exampleRequestEnvelope.Arguments.Checksum) ∧
      ((argsMembers exampleRequestEnvelope.Arguments).any
          (fun m => m.1 == "collection") =
        exampleRequestEnvelope.Arguments.Collection) ∧
      ((argsMembers exampleRequestEnvelope.Arguments).any
          (fun m => m.1 == "contents") =
        exampleRequestEnvelope.Arguments.Contents) ∧
      ((argsMembers exampleRequestEnvelope.Arguments).any
          (fun m => m.1 == "force") =
        exampleRequestEnvelope.Arguments.Force) ∧
      ((argsMembers exampleRequestEnvelope.Arguments).any
          (fun m => m.1 == "object") =
        exampleRequestEnvelope.Arguments.Object) ∧
      ((argsMembers exampleRequestEnvelope.Arguments).any
          (fun m => m.1 == "recurse") =
        exampleRequestEnvelope.Arguments.Recurse) ∧
      ((argsMembers exampleRequestEnvelope.Arguments).any
          (fun m => m.1 == "replicate") =
        exampleRequestEnvelope.Arguments.Replicate) ∧
      ((argsMembers exampleRequestEnvelope.Arguments).any
          (fun m => m.1 == "size") =
        exampleRequestEnvelope.Arguments.Size) ∧
      ((argsMembers exampleRequestEnvelope.Arguments).any
          (fun m => m.1 == "timestamp") =
        exampleRequestEnvelope.Arguments.Timestamp)) :=
  ⟨⟨rfl, rfl, by simp +decide [exampleRequestEnvelope, wfItem, wfItemList]⟩,
    envelope_roundtrip exampleRequestEnvelope rfl rfl
      (by simp +decide [exampleRequestEnvelope, wfItem, wfItemList])⟩

/-! ## Theorems for C7 and C8 -/

/-- C7 (failing evaluation): the comparator of `SortAVUs` is the
disjunction of the three field comparisons, not a lexicographic chain, so
it is not even a strict order: for the AVUs x = (a,b,u) and y = (b,a,u)
each compares less than the other (x by attribute, y by value). Sorting
the two-element list [x, y] therefore swaps them — the sort places the
attribute "b" record before the attribute "a" record although "a" sorts
lexicographically before "b" — so `SortAVUs` does not order by attribute,
then value, then units. -/
theorem sortAVUs_not_lexicographic :
    SortAVUs [⟨"a", "b", "u", ""⟩, ⟨"b", "a", "u", ""⟩] =
      [⟨"b", "a", "u", ""⟩, ⟨"a", "b", "u", ""⟩] ∧
    avuLess ⟨"a", "b", "u", ""⟩ ⟨"b", "a", "u", ""⟩ = true ∧
    avuLess ⟨"b", "a", "u", ""⟩ ⟨"a", "b", "u", ""⟩ = true ∧
    strLtB "a".data "b".data = true := by decide

/-- C8 (failing evaluation): in the comparator of `SortTimestamps` the
modified-time clause reads `!mi && mj`, so among records with equal
replicate numbers and no created time, the record with the *zero* modified
time compares less than the record with a non-zero modified time — the
opposite of the claimed (and comment-documented) rule — and sorting a
modified-only record after an empty record swaps them. -/
theorem sortTimestamps_zero_modified_first :
    SortTimestamps [⟨0, 5, 0⟩, ⟨0, 0, 0⟩] = [⟨0, 0, 0⟩, ⟨0, 5, 0⟩] ∧
    timestampLess ⟨0, 0, 0⟩ ⟨0, 5, 0⟩ = true ∧
    timestampLess ⟨0, 5, 0⟩ ⟨0, 0, 0⟩ = false := by decide

/-- C6 (counterexample): with no extra client arguments at all, the worker
argv computed by `NewClientPool` is the *sorted* list
["--no-error", "--unbuffered"], not the first-occurrence-order list
["--unbuffered", "--no-error"] that the claim requires, because
`utilities.Uniq` collects the deduplicated strings from a map and sorts
them. -/
theorem newClientPoolArgs_not_first_occurrence :
    newClientPoolArgs [] = ["--no-error", "--unbuffered"] ∧
    (["--no-error", "--unbuffered"] : List String) ≠
      ["--unbuffered", "--no-error"] := by
  constructor
  · decide
  · simp

/-- C6 (amended): for every list of extra client arguments, the pool's
worker argv is the lexicographically ascending, duplicate-free enumeration
of the union of the two fixed tokens (unbuffered stdio, in-band errors)
and the extra arguments; first-occurrence order is not preserved. -/
theorem newClientPoolArgs_sorted_dedup (clientArgs : List String) :
    (newClientPoolArgs clientArgs).Sorted (fun a b => goStrLe a b = true) ∧
    (newClientPoolArgs clientArgs).Nodup ∧
    ∀ a, a ∈ newClientPoolArgs clientArgs ↔
      (a = "--unbuffered" ∨ a = "--no-error" ∨ a ∈ clientArgs) := by
  haveI hTot : IsTotal String (fun a b => goStrLe a b = true) := by
    constructor
    intro a b
    by_cases h : strLtB b.data a.data = true
    · right
      simp only [goStrLe, Bool.not_eq_true']
      exact strLtB_asymm b.data a.data h
    · left
      simp only [goStrLe, Bool.not_eq_true']
      exact eq_false_of_ne_true h
  haveI hTr : IsTrans String (fun a b => goStrLe a b = true) := by
    constructor
    intro a b c hab hbc
    simp only [goStrLe, Bool.not_eq_true'] at hab hbc ⊢
    exact strLtB_neg_trans a.data b.data c.data hab hbc
  refine ⟨List.sorted_insertionSort _ _, ?_, ?_⟩
  · exact ((List.perm_insertionSort _ _).nodup_iff).mpr (List.nodup_dedup _)
  · intro a
    rw [newClientPoolArgs, Uniq]
    rw [List.Perm.mem_iff (List.perm_insertionSort _ _), List.mem_dedup]
    simp

end Extendo
